import Mathlib

/-!
Verification of the streaming response assembler of the assistant-ui chat
front-end (`src/app/MyRuntimeProvider.tsx` and `src/app/utils.ts`).

JavaScript strings are modelled as `List Char`; `undefined`-able fields as
`Option`; JS truthiness of an optional string as "present and nonempty".
`JSON.parse` is modelled by `jsonParse`, a fuel-driven recursive-descent
parser of the JSON grammar (ECMA-404); numeric literals are kept as their
lexemes (their conversion to floating point is irrelevant here, only parse
success or failure is observed by the code under study).
-/

/-- Model of a JavaScript string: a list of characters. -/
abbrev Str := List Char

/-- Truthiness of an optional JS string field: present and nonempty. -/
def strTruthy : Option Str → Bool
  | some s => !s.isEmpty
  | none => false

/-- Model of `x || d` for an optional JS string `x`: the default is used when
the field is `undefined` or the empty string. -/
def jsOr (x : Option Str) (d : Str) : Str :=
  match x with
  | some s => if s.isEmpty then d else s
  | none => d

/-- JSON values as produced by `JSON.parse`.  Numbers keep their source
lexeme. -/
inductive Json where
  | null : Json
  | bool (b : Bool) : Json
  | num (lexeme : Str) : Json
  | str (s : Str) : Json
  | arr (elems : List Json) : Json
  | obj (fields : List (Str × Json)) : Json
deriving Repr

/-- JSON insignificant whitespace (ECMA-404): space, tab, line feed,
carriage return. -/
def isJsonWs (c : Char) : Bool :=
  c = ' ' || c = '\t' || c = '\n' || c = '\r'

/-- Skip insignificant JSON whitespace. -/
def skipJsonWs (s : Str) : Str := s.dropWhile isJsonWs

/-- Decode one JSON string escape character (the char after a backslash,
excluding the `u` form which is handled separately). -/
def jsonEscape (c : Char) : Option Char :=
  if c = '"' then some '"'
  else if c = '\\' then some '\\'
  else if c = '/' then some '/'
  else if c = 'b' then some (Char.ofNat 8)
  else if c = 'f' then some (Char.ofNat 12)
  else if c = 'n' then some '\n'
  else if c = 'r' then some '\r'
  else if c = 't' then some '\t'
  else none

/-- Value of one hexadecimal digit. -/
def hexVal (c : Char) : Option Nat :=
  if '0' ≤ c ∧ c ≤ '9' then some (c.toNat - '0'.toNat)
  else if 'a' ≤ c ∧ c ≤ 'f' then some (c.toNat - 'a'.toNat + 10)
  else if 'A' ≤ c ∧ c ≤ 'F' then some (c.toNat - 'A'.toNat + 10)
  else none

/-- Parse the body of a JSON string literal (after the opening quote),
returning the decoded characters and the remaining input.  Fuel-driven. -/
def pString : Nat → Str → Option (Str × Str)
  | 0, _ => none
  | _, [] => none
  | fuel + 1, c :: r =>
    if c = '"' then some ([], r)
    else if c = '\\' then
      match r with
      | [] => none
      | e :: r2 =>
        if e = 'u' then
          match r2 with
          | h1 :: h2 :: h3 :: h4 :: r3 =>
            match hexVal h1, hexVal h2, hexVal h3, hexVal h4 with
            | some v1, some v2, some v3, some v4 =>
              (pString fuel r3).map fun p =>
                (Char.ofNat (((v1 * 16 + v2) * 16 + v3) * 16 + v4) :: p.1, p.2)
            | _, _, _, _ => none
          | _ => none
        else
          match jsonEscape e with
          | some d => (pString fuel r2).map fun p => (d :: p.1, p.2)
          | none => none
    else if c.toNat < 32 then none
    else (pString fuel r).map fun p => (c :: p.1, p.2)

/-- Parse the integer-digit run of a JSON number: `0`, or a nonzero digit
followed by any digits.  Returns the consumed digits and the rest. -/
def pIntDigits : Str → Option (Str × Str)
  | [] => none
  | c :: r =>
    if c = '0' then some ([c], r)
    else if c.isDigit then
      let run := r.takeWhile Char.isDigit
      some (c :: run, r.dropWhile Char.isDigit)
    else none

/-- Parse one or more digits. -/
def pDigits1 (s : Str) : Option (Str × Str) :=
  let run := s.takeWhile Char.isDigit
  if run.isEmpty then none else some (run, s.dropWhile Char.isDigit)

/-- Parse the optional fraction part `.digits` of a JSON number. -/
def pFrac (s : Str) : Option (Str × Str) :=
  match s with
  | '.' :: r =>
    match pDigits1 r with
    | some (ds, r2) => some ('.' :: ds, r2)
    | none => none
  | _ => some ([], s)

/-- Parse the optional exponent part of a JSON number. -/
def pExp (s : Str) : Option (Str × Str) :=
  match s with
  | c :: r =>
    if c = 'e' ∨ c = 'E' then
      match r with
      | sgn :: r2 =>
        if sgn = '+' ∨ sgn = '-' then
          match pDigits1 r2 with
          | some (ds, r3) => some (c :: sgn :: ds, r3)
          | none => none
        else
          match pDigits1 r with
          | some (ds, r3) => some (c :: ds, r3)
          | none => none
      | [] => none
    else some ([], s)
  | [] => some ([], s)

/-- Parse a JSON number, keeping its lexeme. -/
def pNumber (s : Str) : Option (Json × Str) :=
  let (sign, s1) : Str × Str :=
    match s with
    | '-' :: r => (['-'], r)
    | _ => ([], s)
  match pIntDigits s1 with
  | none => none
  | some (ids, s2) =>
    match pFrac s2 with
    | none => none
    | some (fds, s3) =>
      match pExp s3 with
      | none => none
      | some (eds, s4) => some (Json.num (sign ++ ids ++ fds ++ eds), s4)

mutual

/-- Parse a JSON value.  Fuel-driven recursive descent.  Between any two
consumed input characters at most three fuel units are spent (the longest
chain is `pValue` consuming `[` or the object brace, then `pArray` or
`pObject`, then the items helper, before the next `pValue`), so the
top-level entry `jsonParse`, which supplies three fuel units per input
character plus slack, never runs out of fuel on its actual input. -/
def pValue : Nat → Str → Option (Json × Str)
  | 0, _ => none
  | fuel + 1, s =>
    match skipJsonWs s with
    | [] => none
    | c :: rest =>
      if c = 'n' then
        if ['u', 'l', 'l'].isPrefixOf rest then some (Json.null, rest.drop 3)
        else none
      else if c = 't' then
        if ['r', 'u', 'e'].isPrefixOf rest then
          some (Json.bool true, rest.drop 3)
        else none
      else if c = 'f' then
        if ['a', 'l', 's', 'e'].isPrefixOf rest then
          some (Json.bool false, rest.drop 4)
        else none
      else if c = '"' then
        (pString (rest.length + 1) rest).map fun p => (Json.str p.1, p.2)
      else if c = '\x7b' then pObject fuel (skipJsonWs rest)
      else if c = '[' then pArray fuel (skipJsonWs rest)
      else if c = '-' ∨ c.isDigit then pNumber (c :: rest)
      else none

/-- Parse the inside of a JSON array, `[` already consumed and whitespace
skipped. -/
def pArray : Nat → Str → Option (Json × Str)
  | 0, _ => none
  | fuel + 1, s =>
    match s with
    | ']' :: r => some (Json.arr [], r)
    | _ => pArrayItems fuel s []

/-- Parse the comma-separated items of a nonempty JSON array. -/
def pArrayItems : Nat → Str → List Json → Option (Json × Str)
  | 0, _, _ => none
  | fuel + 1, s, acc =>
    match pValue fuel s with
    | none => none
    | some (v, r) =>
      match skipJsonWs r with
      | ',' :: r2 => pArrayItems fuel r2 (acc ++ [v])
      | ']' :: r2 => some (Json.arr (acc ++ [v]), r2)
      | _ => none

/-- Parse the inside of a JSON object, `{` already consumed and whitespace
skipped. -/
def pObject : Nat → Str → Option (Json × Str)
  | 0, _ => none
  | fuel + 1, s =>
    match s with
    | '\x7d' :: r => some (Json.obj [], r)
    | _ => pObjectItems fuel s []

/-- Parse the comma-separated members of a nonempty JSON object. -/
def pObjectItems : Nat → Str → List (Str × Json) → Option (Json × Str)
  | 0, _, _ => none
  | fuel + 1, s, acc =>
    match s with
    | '"' :: r =>
      match pString (r.length + 1) r with
      | none => none
      | some (key, r2) =>
        match skipJsonWs r2 with
        | ':' :: r3 =>
          match pValue fuel r3 with
          | none => none
          | some (v, r4) =>
            match skipJsonWs r4 with
            | ',' :: r5 => pObjectItems fuel (skipJsonWs r5) (acc ++ [(key, v)])
            | '\x7d' :: r5 => some (Json.obj (acc ++ [(key, v)]), r5)
            | _ => none
        | _ => none
    | _ => none

end

/-- Model of `JSON.parse`: parse one JSON value, allowing surrounding
whitespace; fail (i.e. the JS function throws) whenever the grammar is not
matched or input remains.  The fuel `3 * (s.length + 1)` is adequate: the
mutual parsers spend at most three fuel units per consumed character (see
`pValue`), so arbitrarily nested input such as `[[0]]` or `[[[]]]` parses
exactly as under `JSON.parse`. -/
def jsonParse (s : Str) : Option Json :=
  match pValue (3 * (s.length + 1)) s with
  | some (v, rest) => if (skipJsonWs rest).isEmpty then some v else none
  | none => none

/-- Whitespace removed by JavaScript `String.prototype.trim` (the WhiteSpace
and LineTerminator sets; the common members are modelled). -/
def isJsWs (c : Char) : Bool :=
  c = ' ' || c = '\t' || c = '\n' || c = '\r' || c = Char.ofNat 11 ||
  c = Char.ofNat 12 || c = Char.ofNat 160 || c = Char.ofNat 0xFEFF ||
  c = Char.ofNat 0x2028 || c = Char.ofNat 0x2029

/-- Model of `line.trim()`: remove leading and trailing JS whitespace. -/
def jsTrim (s : Str) : Str :=
  ((s.dropWhile isJsWs).reverse.dropWhile isJsWs).reverse

/-- The JSON value `{ type: "done" }` returned by `parseSSEData` for the
`[DONE]` sentinel. -/
def doneJson : Json :=
  Json.obj [("type".toList, Json.str "done".toList)]

/-- Model of `parseSSEData` (src/app/utils.ts): trim the line; discard it
unless it starts with `data: `; map the `[DONE]` payload to the done
sentinel; otherwise attempt `JSON.parse`, discarding the line on failure. -/
def parseSSEData (line : Str) : Option Json :=
  let trimmed := jsTrim line
  if trimmed.isEmpty ∨ ¬ "data: ".toList.isPrefixOf trimmed then none
  else
    let data := trimmed.drop 6
    if data = "[DONE]".toList then some doneJson
    else jsonParse data

/-!
Frame Decoder feeding loop (src/app/MyRuntimeProvider.tsx lines 59-72):
each chunk is appended to a buffer, the buffer is split on newlines, the
trailing (possibly incomplete) line is held back, and every complete line
goes through `parseSSEData`.
-/

/-- Model of JavaScript `s.split("\n")`: the list of chunks between the
newlines, always nonempty. -/
def jsSplitNL : Str → List Str
  | [] => [[]]
  | c :: rest =>
    if c = '\n' then [] :: jsSplitNL rest
    else
      match jsSplitNL rest with
      | [] => [[c]]
      | l :: ls => (c :: l) :: ls

/-- Feed one chunk to the decoder: append to the buffer, split into lines,
hold the final line back as the new buffer (`buffer = lines.pop() || ""`),
and decode each complete line with `parseSSEData`.  Returns the decoded
events and the new buffer. -/
def feedChunk (buffer chunk : Str) : List Json × Str :=
  ((jsSplitNL (buffer ++ chunk)).dropLast.filterMap parseSSEData,
   (jsSplitNL (buffer ++ chunk)).getLastD [])

/-- Feed a sequence of chunks to the decoder, threading the buffer. -/
def feedChunks (buffer : Str) : List Str → List Json × Str
  | [] => ([], buffer)
  | c :: cs =>
    let step := feedChunk buffer c
    let rest := feedChunks step.2 cs
    (step.1 ++ rest.1, rest.2)

/-!
Turn Assembler (src/app/MyRuntimeProvider.tsx lines 54-192).
-/

/-- The `type` discriminator of an SSE message (src/app/types.ts). -/
inductive MsgType where
  | thinking | content | tool_calls | tool_start
  | tool_result | tool_error | error | done
deriving Repr, DecidableEq

/-- The `function` member of a `ToolCallData` (src/app/types.ts).  The
`arguments` field is optional at run time; the source defends against its
absence with `tc.function.arguments || "{}"`. -/
structure ToolCallFunction where
  name : Str
  arguments : Option Str
deriving Repr

/-- One announced tool call (src/app/types.ts `ToolCallData`). -/
structure ToolCallData where
  id : Str
  function : ToolCallFunction
deriving Repr

/-- A decoded SSE message (src/app/types.ts `SSEMessage`); the fields the
adapter never reads (`args`, `content`) are omitted. -/
structure SSEMessage where
  type : MsgType
  text : Option Str
  tool_calls : Option (List ToolCallData)
  tool_name : Option Str
  result : Option Str
  error : Option Str
deriving Repr

/-- One entry of `contentParts`: a text part, or a tool-call part whose
`result` field is absent until a matching `tool_result` message sets it. -/
inductive ContentPart where
  | text (text : Str) : ContentPart
  | toolCall (toolCallId : Str) (toolName : Str) (args : Json)
      (argsText : Str) (result : Option Str) : ContentPart
deriving Repr

/-- The mutable state of the adapter's streaming loop: the accumulated
`contentParts` array and the two index variables (`-1` meaning "none"). -/
structure TurnState where
  contentParts : List ContentPart
  currentTextIndex : Int
  toolCallsIndex : Int
deriving Repr

/-- The initial state (lines 55-57 of the source). -/
def initTurn : TurnState := ⟨[], -1, -1⟩

/-- Model of JS array indexing `arr[i]` with a possibly negative or
out-of-range index: `undefined` becomes `none`. -/
def getPart (l : List ContentPart) (i : Int) : Option ContentPart :=
  if 0 ≤ i then l[i.toNat]? else none

/-- The `tool_result` scan (lines 144-150): walk `contentParts` from the
front and set `result` on the first tool-call part whose `toolName` equals
the message's `tool_name`, whether or not it already has a result. -/
def setFirstToolResult (name r : Str) : List ContentPart → List ContentPart
  | [] => []
  | ContentPart.toolCall id n args argsText res :: rest =>
    if n = name then ContentPart.toolCall id n args argsText (some r) :: rest
    else ContentPart.toolCall id n args argsText res ::
      setFirstToolResult name r rest
  | p :: rest => p :: setFirstToolResult name r rest

/-- The raw text whose parse is used when `arguments` is absent or empty:
the literal of `tc.function.arguments || "{}"`. -/
def emptyObjText : Str := "\x7b\x7d".toList

/-- The `tool_calls` loop (lines 121-129): push one tool-call part per
announcement, parsing `tc.function.arguments || "{}"` with `JSON.parse`.
A parse failure throws; the parts pushed so far remain (`Except.error`
carries them). -/
def appendToolCalls (parts : List ContentPart) :
    List ToolCallData → Except (List ContentPart) (List ContentPart)
  | [] => Except.ok parts
  | tc :: rest =>
    let argsText := jsOr tc.function.arguments emptyObjText
    match jsonParse argsText with
    | some args =>
      appendToolCalls
        (parts ++ [ContentPart.toolCall tc.id tc.function.name args argsText
          none]) rest
    | none => Except.error parts

/-- The text pushed for a `tool_error` message (line 159). -/
def toolErrorText (e : Str) : Str :=
  "⚠️ Tool Error: ".toList ++ e ++ "\n\n".toList

/-- Exception message of a `JSON.parse` failure (its exact wording is
implementation-specific and never observed by the code). -/
def jsonSyntaxError : Str := "SyntaxError".toList

/-- Outcome of the switch statement over one message: normal fall-through,
`return` (the `done` case), or a thrown exception together with the state
at the throw point. -/
inductive SwitchResult where
  | normal (s : TurnState) : SwitchResult
  | ret (s : TurnState) : SwitchResult
  | thrown (s : TurnState) (msg : Str) : SwitchResult
deriving Repr

/-- Model of the switch over `message.type` (lines 77-170), mapping the
state before the message to the outcome.  In the `content` case the source
tests `currentTextIndex === -1 || !contentParts[currentTextIndex] ||
contentParts[currentTextIndex].type !== "text"`; since a negative index
yields `undefined`, this is exactly "`getPart` does not return a text
part". -/
def switchBody (s : TurnState) (m : SSEMessage) : SwitchResult :=
  match m.type with
  | MsgType.thinking => SwitchResult.normal s
  | MsgType.content =>
    if strTruthy m.text then
      let t := m.text.getD []
      match getPart s.contentParts s.currentTextIndex with
      | some (ContentPart.text old) =>
        SwitchResult.normal
          ⟨s.contentParts.set s.currentTextIndex.toNat
            (ContentPart.text (old ++ t)),
           s.currentTextIndex, s.toolCallsIndex⟩
      | _ =>
        SwitchResult.normal
          ⟨s.contentParts ++ [ContentPart.text t],
           (s.contentParts.length : Int), s.toolCallsIndex⟩
    else SwitchResult.normal s
  | MsgType.tool_calls =>
    match m.tool_calls with
    | some tcs =>
      if 0 < tcs.length then
        match appendToolCalls s.contentParts tcs with
        | Except.ok parts =>
          SwitchResult.normal ⟨parts, -1, (s.contentParts.length : Int)⟩
        | Except.error parts =>
          SwitchResult.thrown
            ⟨parts, s.currentTextIndex, (s.contentParts.length : Int)⟩
            jsonSyntaxError
      else SwitchResult.normal s
    | none => SwitchResult.normal s
  | MsgType.tool_start => SwitchResult.normal s
  | MsgType.tool_result =>
    if strTruthy m.tool_name && strTruthy m.result then
      SwitchResult.normal
        ⟨setFirstToolResult (m.tool_name.getD []) (m.result.getD [])
          s.contentParts,
         s.currentTextIndex, s.toolCallsIndex⟩
    else SwitchResult.normal s
  | MsgType.tool_error =>
    if strTruthy m.error then
      SwitchResult.normal
        ⟨s.contentParts ++ [ContentPart.text (toolErrorText (m.error.getD []))],
         s.currentTextIndex, s.toolCallsIndex⟩
    else SwitchResult.normal s
  | MsgType.error => SwitchResult.thrown s (jsOr m.error "Stream error".toList)
  | MsgType.done => SwitchResult.ret s

/-- The yield after the switch (lines 172-177): a copy of `contentParts` is
yielded only when it is nonempty. -/
def yieldSnap (s : TurnState) : List (List ContentPart) :=
  if s.contentParts.isEmpty then [] else [s.contentParts]

/-- Drive the assembler over a list of decoded messages, collecting every
yielded snapshot.  A thrown exception is caught by the per-message handler
(lines 179-183), which only logs: no yield for that message, processing
continues.  The `done` case returns immediately.  When the input is
exhausted the final flush (lines 188-192) applies. -/
def runEvents (s : TurnState) : List SSEMessage → List (List ContentPart)
  | [] => yieldSnap s
  | m :: ms =>
    match switchBody s m with
    | SwitchResult.ret _ => []
    | SwitchResult.thrown s2 _ => runEvents s2 ms
    | SwitchResult.normal s2 => yieldSnap s2 ++ runEvents s2 ms

/-- A `content` message carrying only its `text` field. -/
def contentMsg (t : Option Str) : SSEMessage :=
  ⟨MsgType.content, t, none, none, none, none⟩

/-- A `thinking` message carrying only its `text` field. -/
def thinkingMsg (t : Option Str) : SSEMessage :=
  ⟨MsgType.thinking, t, none, none, none, none⟩

/-- A `tool_calls` message carrying only its `tool_calls` field. -/
def toolCallsMsg (tcs : Option (List ToolCallData)) : SSEMessage :=
  ⟨MsgType.tool_calls, none, tcs, none, none, none⟩

/-- A `tool_start` message. -/
def toolStartMsg : SSEMessage :=
  ⟨MsgType.tool_start, none, none, none, none, none⟩

/-- A `tool_result` message carrying its `tool_name` and `result` fields. -/
def toolResultMsg (tn r : Option Str) : SSEMessage :=
  ⟨MsgType.tool_result, none, none, tn, r, none⟩

/-- A `tool_error` message carrying only its `error` field. -/
def toolErrorMsg (e : Option Str) : SSEMessage :=
  ⟨MsgType.tool_error, none, none, none, none, e⟩

/-- An `error` message carrying only its `error` field. -/
def errorMsg (e : Option Str) : SSEMessage :=
  ⟨MsgType.error, none, none, none, none, e⟩

/-- A `done` message. -/
def doneMsg : SSEMessage :=
  ⟨MsgType.done, none, none, none, none, none⟩

/-- The content part produced for one announcement whose arguments parse
(line 122-128 of the source). -/
def announcedPart (tc : ToolCallData) : ContentPart :=
  ContentPart.toolCall tc.id tc.function.name
    ((jsonParse (jsOr tc.function.arguments emptyObjText)).getD (Json.obj []))
    (jsOr tc.function.arguments emptyObjText) none

/-- Whether a content part is a tool call carrying the given name. -/
def partNamed (t : Str) : ContentPart → Bool
  | ContentPart.toolCall _ n _ _ _ => n = t
  | _ => false

/-- No open text segment: `contentParts[currentTextIndex]` is not a text
part (in particular when the index is `-1` or out of range). -/
def noOpenText (s : TurnState) : Prop :=
  ∀ old, getPart s.contentParts s.currentTextIndex ≠ some (ContentPart.text old)

/-- The open text segment sits at index `i` and currently holds `old`. -/
def openTextAt (s : TurnState) (i : Nat) (old : Str) : Prop :=
  s.currentTextIndex = (i : Int) ∧
  getPart s.contentParts s.currentTextIndex = some (ContentPart.text old)

/-- Glue a held-back partial line onto the first line of a later split. -/
def prependFirst (p : Str) : List Str → List Str
  | [] => [p]
  | l :: ls => (p ++ l) :: ls

theorem jsSplitNL_ne_nil (s : Str) : jsSplitNL s ≠ [] := by
  cases s with
  | nil => simp [jsSplitNL]
  | cons c rest =>
    simp only [jsSplitNL]
    split
    · simp
    · split <;> simp

theorem prependFirst_ne_nil (p : Str) (ls : List Str) : prependFirst p ls ≠ [] := by
  cases ls <;> simp [prependFirst]

theorem prependFirst_nil_eq (ls : List Str) (h : ls ≠ []) :
    prependFirst [] ls = ls := by
  cases ls with
  | nil => exact absurd rfl h
  | cons m ms => simp [prependFirst]

theorem jsSplitNL_cons_nl (s : Str) : jsSplitNL ('\n' :: s) = [] :: jsSplitNL s := by
  simp [jsSplitNL]

theorem jsSplitNL_cons_other {c : Char} (hc : c ≠ '\n') (s : Str) :
    jsSplitNL (c :: s) =
      match jsSplitNL s with
      | [] => [[c]]
      | l :: ls => (c :: l) :: ls := by
  simp [jsSplitNL, hc]

/-- Splitting a concatenation: all complete lines of `x`, then the splits
of `y` with the trailing partial line of `x` glued onto the first. -/
theorem jsSplitNL_append (x y : Str) :
    jsSplitNL (x ++ y) =
      (jsSplitNL x).dropLast ++
        prependFirst ((jsSplitNL x).getLastD []) (jsSplitNL y) := by
  induction x with
  | nil =>
    simp [jsSplitNL, prependFirst_nil_eq _ (jsSplitNL_ne_nil y)]
  | cons c x ih =>
    rw [List.cons_append]
    by_cases hc : c = '\n'
    · subst hc
      have hne := jsSplitNL_ne_nil x
      rw [jsSplitNL_cons_nl, jsSplitNL_cons_nl, ih,
        List.dropLast_cons_of_ne_nil hne, List.getLastD_cons, List.cons_append]
    · cases hsx : jsSplitNL x with
      | nil => exact absurd hsx (jsSplitNL_ne_nil x)
      | cons l ls =>
        cases ls with
        | nil =>
          cases hsy : jsSplitNL y with
          | nil => exact absurd hsy (jsSplitNL_ne_nil y)
          | cons m ms =>
            rw [jsSplitNL_cons_other hc, jsSplitNL_cons_other hc, ih, hsx, hsy]
            simp [prependFirst]
        | cons l2 ls2 =>
          rw [jsSplitNL_cons_other hc, jsSplitNL_cons_other hc, ih, hsx]
          have h2 : (l2 :: ls2 : List Str) ≠ [] := by simp
          simp only [List.dropLast_cons_of_ne_nil h2, List.getLastD_cons]
          simp

/-- The held-back trailing line never contains a newline. -/
theorem jsSplitNL_last_no_nl (s : Str) : '\n' ∉ (jsSplitNL s).getLastD [] := by
  induction s with
  | nil => simp [jsSplitNL]
  | cons c rest ih =>
    by_cases hc : c = '\n'
    · subst hc
      rw [jsSplitNL_cons_nl, List.getLastD_cons]
      exact ih
    · rw [jsSplitNL_cons_other hc]
      cases hsr : jsSplitNL rest with
      | nil => exact absurd hsr (jsSplitNL_ne_nil rest)
      | cons m ms =>
        rw [hsr] at ih
        cases ms with
        | nil =>
          simp only [List.getLastD_cons, List.getLastD_nil] at ih ⊢
          simp only [List.mem_cons, not_or]
          exact ⟨fun e => hc e.symm, ih⟩
        | cons m2 ms2 =>
          simp only [List.getLastD_cons] at ih ⊢
          exact ih

/-- A newline-free string splits into itself alone. -/
theorem jsSplitNL_no_nl (l : Str) (h : '\n' ∉ l) : jsSplitNL l = [l] := by
  induction l with
  | nil => simp [jsSplitNL]
  | cons c rest ih =>
    have hc : c ≠ '\n' := fun e => h (by simp [e])
    rw [jsSplitNL_cons_other hc, ih (fun hm => h (List.mem_cons_of_mem _ hm))]

/-- Events of one chunk split in two: the decoder is insensitive to the cut
point (event component). -/
theorem feedChunk_comp_fst (buf a b : Str) :
    (feedChunk buf (a ++ b)).1 =
      (feedChunk buf a).1 ++ (feedChunk (feedChunk buf a).2 b).1 := by
  have hg : '\n' ∉ (jsSplitNL (buf ++ a)).getLastD [] := jsSplitNL_last_no_nl (buf ++ a)
  have hsg : jsSplitNL ((jsSplitNL (buf ++ a)).getLastD [] ++ b) =
      prependFirst ((jsSplitNL (buf ++ a)).getLastD []) (jsSplitNL b) := by
    rw [jsSplitNL_append _ b, jsSplitNL_no_nl _ hg]
    simp [List.getLastD_cons]
  show (jsSplitNL (buf ++ (a ++ b))).dropLast.filterMap parseSSEData = _
  rw [← List.append_assoc, jsSplitNL_append (buf ++ a) b]
  show _ = (jsSplitNL (buf ++ a)).dropLast.filterMap parseSSEData ++
    (jsSplitNL ((jsSplitNL (buf ++ a)).getLastD [] ++ b)).dropLast.filterMap parseSSEData
  rw [hsg, List.dropLast_append_of_ne_nil _ (prependFirst_ne_nil _ _),
    List.filterMap_append]

/-- Buffer of one chunk split in two: the decoder is insensitive to the cut
point (buffer component). -/
theorem feedChunk_comp_snd (buf a b : Str) :
    (feedChunk buf (a ++ b)).2 = (feedChunk (feedChunk buf a).2 b).2 := by
  have hg : '\n' ∉ (jsSplitNL (buf ++ a)).getLastD [] := jsSplitNL_last_no_nl (buf ++ a)
  have hsg : jsSplitNL ((jsSplitNL (buf ++ a)).getLastD [] ++ b) =
      prependFirst ((jsSplitNL (buf ++ a)).getLastD []) (jsSplitNL b) := by
    rw [jsSplitNL_append _ b, jsSplitNL_no_nl _ hg]
    simp [List.getLastD_cons]
  show (jsSplitNL (buf ++ (a ++ b))).getLastD [] =
    (jsSplitNL ((jsSplitNL (buf ++ a)).getLastD [] ++ b)).getLastD []
  rw [← List.append_assoc, jsSplitNL_append (buf ++ a) b, hsg,
    List.getLastD_eq_getLast?, List.getLastD_eq_getLast?,
    List.getLast?_append_of_ne_nil _ (prependFirst_ne_nil _ _),
    List.getLastD_eq_getLast?]

/-- Feeding a nonempty chunk list equals feeding its concatenation as one
chunk. -/
theorem feedChunks_flatten (buf : Str) (cs : List Str) (h : cs ≠ []) :
    feedChunks buf cs = feedChunk buf cs.flatten := by
  induction cs generalizing buf with
  | nil => exact absurd rfl h
  | cons c cs ih =>
    cases cs with
    | nil => simp [feedChunks, List.flatten]
    | cons c2 cs2 =>
      have hflat : (c :: c2 :: cs2).flatten = c ++ (c2 :: cs2).flatten := rfl
      rw [hflat]
      rw [show feedChunks buf (c :: c2 :: cs2) =
        ((feedChunk buf c).1 ++ (feedChunks (feedChunk buf c).2 (c2 :: cs2)).1,
         (feedChunks (feedChunk buf c).2 (c2 :: cs2)).2) from rfl]
      rw [ih _ (by simp)]
      rw [show feedChunk buf (c ++ (c2 :: cs2).flatten) =
        ((feedChunk buf (c ++ (c2 :: cs2).flatten)).1,
         (feedChunk buf (c ++ (c2 :: cs2).flatten)).2) from rfl,
        feedChunk_comp_fst, feedChunk_comp_snd]

theorem setFirstToolResult_nomatch (t r : Str) (parts : List ContentPart)
    (h : ∀ p ∈ parts, partNamed t p = false) :
    setFirstToolResult t r parts = parts := by
  induction parts with
  | nil => rfl
  | cons p rest ih =>
    cases p with
    | text tx =>
      simp only [setFirstToolResult]
      rw [ih (fun q hq => h q (List.mem_cons_of_mem _ hq))]
    | toolCall id n args argsText res =>
      have hn : (n = t) = False := by
        have := h (ContentPart.toolCall id n args argsText res) (by simp)
        simp [partNamed] at this
        simp [this]
      simp only [setFirstToolResult]
      rw [if_neg (by simp [hn])]
      rw [ih (fun q hq => h q (List.mem_cons_of_mem _ hq))]

theorem setFirstToolResult_first (t r : Str) (pre post : List ContentPart)
    (id : Str) (args : Json) (argsText : Str) (res : Option Str)
    (h : ∀ p ∈ pre, partNamed t p = false) :
    setFirstToolResult t r
        (pre ++ ContentPart.toolCall id t args argsText res :: post) =
      pre ++ ContentPart.toolCall id t args argsText (some r) :: post := by
  induction pre with
  | nil =>
    simp [setFirstToolResult]
  | cons p rest ih =>
    cases p with
    | text tx =>
      simp only [List.cons_append, setFirstToolResult, List.append_eq]
      rw [ih (fun q hq => h q (List.mem_cons_of_mem _ hq))]
    | toolCall id2 n2 args2 argsText2 res2 =>
      have hn : ¬ n2 = t := by
        have := h (ContentPart.toolCall id2 n2 args2 argsText2 res2) (by simp)
        simp [partNamed] at this
        exact this
      simp only [List.cons_append, setFirstToolResult, List.append_eq]
      rw [if_neg hn, ih (fun q hq => h q (List.mem_cons_of_mem _ hq))]

theorem appendToolCalls_ok (parts : List ContentPart) (tcs : List ToolCallData)
    (h : ∀ tc ∈ tcs,
      (jsonParse (jsOr tc.function.arguments emptyObjText)).isSome = true) :
    appendToolCalls parts tcs = Except.ok (parts ++ tcs.map announcedPart) := by
  induction tcs generalizing parts with
  | nil => simp [appendToolCalls]
  | cons tc rest ih =>
    obtain ⟨v, hv⟩ := Option.isSome_iff_exists.mp (h tc (by simp))
    simp only [appendToolCalls]
    rw [hv]
    show appendToolCalls (parts ++ [ContentPart.toolCall tc.id tc.function.name
      v (jsOr tc.function.arguments emptyObjText) none]) rest = _
    rw [ih _ (fun q hq => h q (List.mem_cons_of_mem _ hq))]
    simp [announcedPart, hv]

theorem appendToolCalls_err (parts : List ContentPart)
    (good : List ToolCallData) (bad : ToolCallData) (rest : List ToolCallData)
    (h : ∀ tc ∈ good,
      (jsonParse (jsOr tc.function.arguments emptyObjText)).isSome = true)
    (hb : (jsonParse (jsOr bad.function.arguments emptyObjText)).isSome = false) :
    appendToolCalls parts (good ++ bad :: rest) =
      Except.error (parts ++ good.map announcedPart) := by
  induction good generalizing parts with
  | nil =>
    have hbn : jsonParse (jsOr bad.function.arguments emptyObjText) = none := by
      cases hx : jsonParse (jsOr bad.function.arguments emptyObjText) with
      | none => rfl
      | some v => rw [hx] at hb; simp at hb
    simp only [List.nil_append, appendToolCalls]
    rw [hbn]
    simp
  | cons tc gd ih =>
    obtain ⟨v, hv⟩ := Option.isSome_iff_exists.mp (h tc (by simp))
    simp only [List.cons_append, appendToolCalls]
    rw [hv]
    show appendToolCalls (parts ++ [ContentPart.toolCall tc.id tc.function.name
      v (jsOr tc.function.arguments emptyObjText) none]) (gd ++ bad :: rest) = _
    rw [ih _ (fun q hq => h q (List.mem_cons_of_mem _ hq))]
    simp [announcedPart, hv]

theorem getPart_append_left (parts l2 : List ContentPart) (i : Int)
    (p : ContentPart) (h : getPart parts i = some p) :
    getPart (parts ++ l2) i = some p := by
  unfold getPart at h ⊢
  by_cases hi : 0 ≤ i
  · rw [if_pos hi] at h ⊢
    obtain ⟨hlt, _⟩ := List.getElem?_eq_some_iff.mp h
    rw [List.getElem?_append_left hlt]
    exact h
  · rw [if_neg hi] at h
    exact absurd h (by simp)

/-- Claim C1 (corrected): a decoded `error` message raises, but the raised
failure is caught by the per-message handler and only logged: the turn is
not terminated, nothing is propagated to the caller, no snapshot is yielded
for that message, the state is unchanged, and subsequent events of the
stream are processed exactly as if the error event had not occurred. -/
theorem C1_stream_error_swallowed (s : TurnState) (e : Option Str)
    (ms : List SSEMessage) :
    runEvents s (errorMsg e :: ms) = runEvents s ms := by
  simp [runEvents, switchBody, errorMsg]

/-- Claim C1 is false as stated: after an `error` event the stream is not
terminated and the failure does not reach the caller — a following
`content` event is still processed and yields a snapshot. -/
theorem C1_counterexample :
    runEvents initTurn
        [errorMsg (some "boom".toList), contentMsg (some "hi".toList)] =
      [[ContentPart.text "hi".toList], [ContentPart.text "hi".toList]] := rfl

/-- Claim C2 is false as stated: with a first `search` segment already
resolved (`R1`) and a second unresolved one, `ToolResult(search, R2)`
overwrites the first segment's result instead of skipping it and resolving
the second. -/
theorem C2_counterexample :
    switchBody
        ⟨[ContentPart.toolCall "1".toList "search".toList (Json.obj [])
            emptyObjText (some "R1".toList),
          ContentPart.toolCall "2".toList "search".toList (Json.obj [])
            emptyObjText none], -1, 1⟩
        (toolResultMsg (some "search".toList) (some "R2".toList)) =
      SwitchResult.normal
        ⟨[ContentPart.toolCall "1".toList "search".toList (Json.obj [])
            emptyObjText (some "R2".toList),
          ContentPart.toolCall "2".toList "search".toList (Json.obj [])
            emptyObjText none], -1, 1⟩ := rfl

/-- Claim C2 (corrected): a `tool_result` message with nonempty `tool_name`
and `result` sets the result of the first (lowest-index) tool-call segment
whose name matches, regardless of whether that segment already has a
result; all other segments and both index variables are unchanged. -/
theorem C2_first_match_overwritten (pre post : List ContentPart)
    (id t : Str) (args : Json) (argsText : Str) (res : Option Str) (r : Str)
    (cti tci : Int)
    (hpre : ∀ p ∈ pre, partNamed t p = false) (ht : t ≠ []) (hr : r ≠ []) :
    switchBody
        ⟨pre ++ ContentPart.toolCall id t args argsText res :: post, cti, tci⟩
        (toolResultMsg (some t) (some r)) =
      SwitchResult.normal
        ⟨pre ++ ContentPart.toolCall id t args argsText (some r) :: post,
          cti, tci⟩ := by
  have h1 : strTruthy (some t) = true := by
    simp [strTruthy, List.isEmpty_eq_false.mpr ht]
  have h2 : strTruthy (some r) = true := by
    simp [strTruthy, List.isEmpty_eq_false.mpr hr]
  simp only [switchBody, toolResultMsg, h1, h2, Bool.and_self, if_true,
    Option.getD_some]
  rw [setFirstToolResult_first t r pre post id args argsText res hpre]

/-- Witness for C2: one unresolved `search` segment after a text segment
receives the result. -/
theorem C2_witness :
    switchBody
        ⟨[ContentPart.text "x".toList,
          ContentPart.toolCall "1".toList "search".toList (Json.obj [])
            emptyObjText none], -1, -1⟩
        (toolResultMsg (some "search".toList) (some "R1".toList)) =
      SwitchResult.normal
        ⟨[ContentPart.text "x".toList,
          ContentPart.toolCall "1".toList "search".toList (Json.obj [])
            emptyObjText (some "R1".toList)], -1, -1⟩ :=
  C2_first_match_overwritten [ContentPart.text "x".toList] []
    "1".toList "search".toList (Json.obj []) emptyObjText none "R1".toList
    (-1) (-1) (by decide) (by decide) (by decide)

/-- Claim C5 is false as stated: a `thinking` event arriving before any
segment exists yields no snapshot at all (`contentParts` is empty, and the
yield is guarded by nonemptiness). -/
theorem C5_counterexample :
    runEvents initTurn [thinkingMsg (some "hm".toList)] = [] := rfl

/-- Claim C5 (corrected): after any message whose processing completes
normally (neither throwing nor returning), a snapshot of the current
segment list is yielded exactly when that list is nonempty; when it is
empty no snapshot is emitted. -/
theorem C5_snapshot_iff_nonempty (s s2 : TurnState) (m : SSEMessage)
    (ms : List SSEMessage) (h : switchBody s m = SwitchResult.normal s2) :
    runEvents s (m :: ms) =
      (if s2.contentParts.isEmpty then [] else [s2.contentParts]) ++
        runEvents s2 ms := by
  simp [runEvents, h, yieldSnap]

/-- Witness for C5: a first content delta yields its snapshot. -/
theorem C5_witness :
    runEvents initTurn [contentMsg (some "hi".toList)] =
      (if ([ContentPart.text "hi".toList] : List ContentPart).isEmpty then []
       else [[ContentPart.text "hi".toList]]) ++
        runEvents ⟨[ContentPart.text "hi".toList], 0, -1⟩ [] :=
  C5_snapshot_iff_nonempty initTurn ⟨[ContentPart.text "hi".toList], 0, -1⟩
    (contentMsg (some "hi".toList)) [] rfl

/-- Claim C6 (confirmed): feeding any sequence of chunks through the
decoder loop (buffering the trailing partial line across chunks) produces
exactly the event sequence obtained by feeding the whole concatenation as
one chunk — for every splitting, of every text, well-formed or not. -/
theorem C6_chunk_boundary_invariance (chunks : List Str) :
    (feedChunks [] chunks).1 = (feedChunks [] [chunks.flatten]).1 := by
  cases chunks with
  | nil => rfl
  | cons c cs =>
    rw [feedChunks_flatten [] (c :: cs) (by simp)]
    simp [feedChunks]

/-- Claim C7 is false as stated for the empty delta: `content` with
`text = ""` appends no segment at all (the claim requires a new text
segment holding the delta's text). -/
theorem C7_counterexample :
    switchBody initTurn (contentMsg (some [])) = SwitchResult.normal initTurn := rfl

/-- Claim C7 (corrected): for a `content` message with nonempty text — if
no open text segment exists, a new text segment with the delta's text is
appended and becomes open (its index is recorded); otherwise the delta is
concatenated, with no separator, onto the open segment's text in place. -/
theorem C7_content_delta (s : TurnState) (t : Str) (ht : t ≠ []) :
    (noOpenText s →
      switchBody s (contentMsg (some t)) =
        SwitchResult.normal ⟨s.contentParts ++ [ContentPart.text t],
          (s.contentParts.length : Int), s.toolCallsIndex⟩) ∧
    (∀ i old, openTextAt s i old →
      switchBody s (contentMsg (some t)) =
        SwitchResult.normal ⟨s.contentParts.set i (ContentPart.text (old ++ t)),
          s.currentTextIndex, s.toolCallsIndex⟩) := by
  have h1 : strTruthy (some t) = true := by
    simp [strTruthy, List.isEmpty_eq_false.mpr ht]
  constructor
  · intro hno
    simp only [switchBody, contentMsg, h1, if_true, Option.getD_some]
    cases hg : getPart s.contentParts s.currentTextIndex with
    | none => rfl
    | some p =>
      cases p with
      | text old => exact absurd hg (hno old)
      | toolCall a b c d e => rfl
  · intro i old hopen
    obtain ⟨hcti, hget⟩ := hopen
    simp only [switchBody, contentMsg, h1, if_true, Option.getD_some]
    rw [hget, hcti, Int.toNat_ofNat]

/-- Witness for C7: `"Hello "` opens a segment, `"world"` extends it to a
single `"Hello world"` segment. -/
theorem C7_witness :
    switchBody initTurn (contentMsg (some "Hello ".toList)) =
      SwitchResult.normal ⟨[ContentPart.text "Hello ".toList], 0, -1⟩ ∧
    switchBody ⟨[ContentPart.text "Hello ".toList], 0, -1⟩
        (contentMsg (some "world".toList)) =
      SwitchResult.normal ⟨[ContentPart.text "Hello world".toList], 0, -1⟩ :=
  ⟨(C7_content_delta initTurn "Hello ".toList (by decide)).1
      (fun old h => by simp [initTurn, getPart] at h),
   (C7_content_delta ⟨[ContentPart.text "Hello ".toList], 0, -1⟩
      "world".toList (by decide)).2 0 "Hello ".toList ⟨rfl, rfl⟩⟩

/-- Claim C3 is false as stated: after `content "A"`, `tool_error "boom"`,
`content "B"`, the `"B"` delta is appended to the earlier `"A"` segment,
not to the freshly pushed error segment; moreover a `tool_error` with an
empty message appends nothing. -/
theorem C3_counterexample :
    runEvents initTurn [contentMsg (some "A".toList),
        toolErrorMsg (some "boom".toList), contentMsg (some "B".toList)] =
      [[ContentPart.text "A".toList],
       [ContentPart.text "A".toList,
        ContentPart.text (toolErrorText "boom".toList)],
       [ContentPart.text "AB".toList,
        ContentPart.text (toolErrorText "boom".toList)],
       [ContentPart.text "AB".toList,
        ContentPart.text (toolErrorText "boom".toList)]] ∧
    switchBody initTurn (toolErrorMsg (some [])) =
      SwitchResult.normal initTurn :=
  ⟨rfl, rfl⟩

/-- Claim C3 (corrected): a `tool_error` message with nonempty message
always appends a brand-new text segment with the formatted notice, but the
open-text-segment marker is not updated: a subsequent `content` delta is
appended to the previously open text segment (at its old index), never to
the error segment. -/
theorem C3_error_segment_not_open (s : TurnState) (err : Str)
    (herr : err ≠ []) :
    switchBody s (toolErrorMsg (some err)) =
      SwitchResult.normal
        ⟨s.contentParts ++ [ContentPart.text (toolErrorText err)],
          s.currentTextIndex, s.toolCallsIndex⟩ ∧
    (∀ i old t, openTextAt s i old → t ≠ [] →
      switchBody
          ⟨s.contentParts ++ [ContentPart.text (toolErrorText err)],
            s.currentTextIndex, s.toolCallsIndex⟩
          (contentMsg (some t)) =
        SwitchResult.normal
          ⟨(s.contentParts ++ [ContentPart.text (toolErrorText err)]).set i
              (ContentPart.text (old ++ t)),
            s.currentTextIndex, s.toolCallsIndex⟩) := by
  have h1 : strTruthy (some err) = true := by
    simp [strTruthy, List.isEmpty_eq_false.mpr herr]
  constructor
  · simp only [switchBody, toolErrorMsg, h1, if_true, Option.getD_some]
  · intro i old t hopen hte
    obtain ⟨hcti, hget⟩ := hopen
    have hget2 : getPart
        (s.contentParts ++ [ContentPart.text (toolErrorText err)])
        s.currentTextIndex = some (ContentPart.text old) :=
      getPart_append_left _ _ _ _ hget
    have h2 : strTruthy (some t) = true := by
      simp [strTruthy, List.isEmpty_eq_false.mpr hte]
    simp only [switchBody, contentMsg, h2, if_true, Option.getD_some]
    rw [hget2, hcti, Int.toNat_ofNat]

/-- Witness for C3: the error notice is appended after `"A"`, and the
following `"B"` delta lands in the `"A"` segment. -/
theorem C3_witness :
    switchBody ⟨[ContentPart.text "A".toList], 0, -1⟩
        (toolErrorMsg (some "boom".toList)) =
      SwitchResult.normal
        ⟨[ContentPart.text "A".toList,
          ContentPart.text (toolErrorText "boom".toList)], 0, -1⟩ ∧
    switchBody ⟨[ContentPart.text "A".toList,
          ContentPart.text (toolErrorText "boom".toList)], 0, -1⟩
        (contentMsg (some "B".toList)) =
      SwitchResult.normal
        ⟨[ContentPart.text "AB".toList,
          ContentPart.text (toolErrorText "boom".toList)], 0, -1⟩ :=
  ⟨(C3_error_segment_not_open ⟨[ContentPart.text "A".toList], 0, -1⟩
      "boom".toList (by decide)).1,
   (C3_error_segment_not_open ⟨[ContentPart.text "A".toList], 0, -1⟩
      "boom".toList (by decide)).2 0 "A".toList "B".toList ⟨rfl, rfl⟩
      (by decide)⟩

/-- Claim C4 is false as stated: an announcement whose `arguments` string
is `"{"` makes `JSON.parse` raise — the announcement is not appended with
empty-object args, the open-text marker is not cleared (the exception is
caught by the per-message handler); and an empty batch clears nothing. -/
theorem C4_counterexample :
    switchBody ⟨[ContentPart.text "A".toList], 0, -1⟩
        (toolCallsMsg (some [⟨"1".toList, ⟨"x".toList, some "\x7b".toList⟩⟩])) =
      SwitchResult.thrown ⟨[ContentPart.text "A".toList], 0, 1⟩
        jsonSyntaxError ∧
    switchBody ⟨[ContentPart.text "A".toList], 0, -1⟩ (toolCallsMsg (some [])) =
      SwitchResult.normal ⟨[ContentPart.text "A".toList], 0, -1⟩ :=
  ⟨rfl, rfl⟩

/-- Claim C4 (corrected): for a nonempty `tool_calls` batch, if every
announcement's `arguments` (or `"{}"` when absent/empty) parses, each is
appended in order with its parsed args and the open-text marker is
cleared; if some announcement fails to parse, `JSON.parse` raises: the
earlier announcements stay appended, the failing one and the rest are
dropped, and the open-text marker keeps its previous value. -/
theorem C4_tool_calls_parse (s : TurnState) (tcs : List ToolCallData)
    (h : tcs ≠ []) :
    ((∀ tc ∈ tcs,
        (jsonParse (jsOr tc.function.arguments emptyObjText)).isSome = true) →
      switchBody s (toolCallsMsg (some tcs)) =
        SwitchResult.normal ⟨s.contentParts ++ tcs.map announcedPart, -1,
          (s.contentParts.length : Int)⟩) ∧
    (∀ good bad rest, tcs = good ++ bad :: rest →
      (∀ tc ∈ good,
        (jsonParse (jsOr tc.function.arguments emptyObjText)).isSome = true) →
      (jsonParse (jsOr bad.function.arguments emptyObjText)).isSome = false →
      switchBody s (toolCallsMsg (some tcs)) =
        SwitchResult.thrown ⟨s.contentParts ++ good.map announcedPart,
          s.currentTextIndex, (s.contentParts.length : Int)⟩ jsonSyntaxError) := by
  have hlen : 0 < tcs.length := List.length_pos.mpr h
  constructor
  · intro hall
    simp only [switchBody, toolCallsMsg]
    rw [if_pos hlen, appendToolCalls_ok _ _ hall]
  · intro good bad rest heq hgood hbad
    simp only [switchBody, toolCallsMsg]
    rw [if_pos hlen, heq, appendToolCalls_err _ _ _ _ hgood hbad]

/-- Witness for C4: a parsing batch is appended with parsed args — also
with nested-array arguments `[[0]]`, which `JSON.parse` accepts; a batch
whose only announcement carries `"{"` throws with nothing appended. -/
theorem C4_witness :
    switchBody initTurn (toolCallsMsg (some [⟨"1".toList,
        ⟨"web_search".toList, some "\x7b\"query\":\"cats\"\x7d".toList⟩⟩])) =
      SwitchResult.normal
        ⟨initTurn.contentParts ++
            List.map announcedPart [⟨"1".toList,
              ⟨"web_search".toList, some "\x7b\"query\":\"cats\"\x7d".toList⟩⟩],
          -1, (initTurn.contentParts.length : Int)⟩ ∧
    switchBody initTurn (toolCallsMsg (some [⟨"3".toList,
        ⟨"nested".toList, some "[[0]]".toList⟩⟩])) =
      SwitchResult.normal
        ⟨initTurn.contentParts ++
            List.map announcedPart [⟨"3".toList,
              ⟨"nested".toList, some "[[0]]".toList⟩⟩],
          -1, (initTurn.contentParts.length : Int)⟩ ∧
    switchBody initTurn (toolCallsMsg (some [⟨"2".toList,
        ⟨"x".toList, some "\x7b".toList⟩⟩])) =
      SwitchResult.thrown
        ⟨initTurn.contentParts ++ List.map announcedPart [],
          initTurn.currentTextIndex, (initTurn.contentParts.length : Int)⟩
        jsonSyntaxError :=
  ⟨(C4_tool_calls_parse initTurn
      [⟨"1".toList, ⟨"web_search".toList,
        some "\x7b\"query\":\"cats\"\x7d".toList⟩⟩] (by simp)).1 (by decide),
   (C4_tool_calls_parse initTurn
      [⟨"3".toList, ⟨"nested".toList, some "[[0]]".toList⟩⟩] (by simp)).1
      (by decide),
   (C4_tool_calls_parse initTurn
      [⟨"2".toList, ⟨"x".toList, some "\x7b".toList⟩⟩] (by simp)).2
      [] ⟨"2".toList, ⟨"x".toList, some "\x7b".toList⟩⟩ [] rfl
      (by simp) (by decide)⟩

/-- Claim C8 is false as stated: the line `" data: [DONE]"` does not begin
with `data: ` yet produces an event, because the decoder trims the line
first. -/
theorem C8_counterexample :
    "data: ".toList.isPrefixOf " data: [DONE]".toList = false ∧
    parseSSEData " data: [DONE]".toList = some doneJson :=
  ⟨by decide, rfl⟩

/-- Claim C8 (corrected): the decoder first trims the line of leading and
trailing whitespace; every line whose trimmed form does not begin with the
literal prefix `data: ` produces no event and no error. -/
theorem C8_non_data_line_dropped (line : Str)
    (h : "data: ".toList.isPrefixOf (jsTrim line) = false) :
    parseSSEData line = none := by
  have h2 : ¬ "data: ".toList <+: jsTrim line := by
    rw [← List.isPrefixOf_iff_prefix, h]
    simp
  simp only [parseSSEData]
  simp
  intro _ hp
  exact absurd hp h2

/-- Witness for C8: a non-`data:` framing line is discarded. -/
theorem C8_witness : parseSSEData "event: ping".toList = none :=
  C8_non_data_line_dropped "event: ping".toList (by decide)

/-- Claim C9 is false as stated: the line `"data: [DONE] "` has payload
`"[DONE] "` (after the prefix), which is neither the literal token nor
valid JSON, yet the decoder emits the done sentinel, because trimming
happens before the payload is taken. -/
theorem C9_counterexample :
    parseSSEData "data: [DONE] ".toList = some doneJson ∧
    "data: [DONE] ".toList.drop 6 ≠ "[DONE]".toList ∧
    jsonParse ("data: [DONE] ".toList.drop 6) = none :=
  ⟨rfl, by decide, rfl⟩

/-- Claim C9 (corrected): with the payload taken from the trimmed line —
payload exactly `[DONE]` yields the done sentinel, bypassing JSON parsing;
any other payload that fails to parse as JSON produces no event and does
not raise. -/
theorem C9_data_payload (line : Str)
    (h : "data: ".toList.isPrefixOf (jsTrim line) = true) :
    ((jsTrim line).drop 6 = "[DONE]".toList →
      parseSSEData line = some doneJson) ∧
    ((jsTrim line).drop 6 ≠ "[DONE]".toList →
      jsonParse ((jsTrim line).drop 6) = none →
      parseSSEData line = none) := by
  have hne : (jsTrim line).isEmpty = false := by
    cases htl : jsTrim line with
    | nil => rw [htl] at h; simp [List.isPrefixOf] at h
    | cons a l => simp
  have h2 : "data: ".toList <+: jsTrim line := List.isPrefixOf_iff_prefix.mp h
  constructor
  · intro hd
    simp [parseSSEData, hne, hd]
    exact h2
  · intro hd hj
    simp [parseSSEData, hne, hj]
    exact fun _ => hd

/-- Witness for C9: `data: [DONE]` decodes to the sentinel; `data: x` is
silently dropped. -/
theorem C9_witness :
    parseSSEData "data: [DONE]".toList = some doneJson ∧
    parseSSEData "data: x".toList = none :=
  ⟨(C9_data_payload "data: [DONE]".toList (by decide)).1 rfl,
   (C9_data_payload "data: x".toList (by decide)).2 (by decide) rfl⟩

/-- Claim C10 (confirmed): a `tool_result` message whose `tool_name` is
absent or empty, whose `result` is absent or empty, or whose name matches
no tool-call segment, leaves the whole turn state unchanged and raises no
error. -/
theorem C10_unmatched_tool_result (s : TurnState) (m : SSEMessage)
    (hty : m.type = MsgType.tool_result)
    (h : strTruthy m.tool_name = false ∨ strTruthy m.result = false ∨
      ∀ p ∈ s.contentParts, partNamed (m.tool_name.getD []) p = false) :
    switchBody s m = SwitchResult.normal s := by
  rcases h with h | h | h
  · simp [switchBody, hty, h]
  · simp [switchBody, hty, h]
  · by_cases h1 : (strTruthy m.tool_name && strTruthy m.result) = true
    · simp [switchBody, hty, h1, setFirstToolResult_nomatch _ _ _ h]
    · simp [switchBody, hty, h1]

/-- Witness for C10: a result for `beta` leaves a lone `alpha` segment
untouched. -/
theorem C10_witness :
    switchBody ⟨[ContentPart.toolCall "1".toList "alpha".toList (Json.obj [])
        emptyObjText none], -1, 0⟩
      (toolResultMsg (some "beta".toList) (some "r".toList)) =
    SwitchResult.normal ⟨[ContentPart.toolCall "1".toList "alpha".toList
        (Json.obj []) emptyObjText none], -1, 0⟩ :=
  C10_unmatched_tool_result _ _ rfl (Or.inr (Or.inr (by decide)))
